import Mathlib

/-!
Shallow embedding of `src/main.c` (LSH, a small line-oriented command
interpreter).  Pure C functions become Lean functions; OS effects
(stdout/stderr writes, the working directory, `chdir`, `fork`, `waitpid`,
allocation success) are modelled by an explicit `World` state threaded
through each call plus an `OS` oracle record supplying the outcomes of the
OS calls.  Handlers return the C `int` continuation signal (1 = continue,
0 = terminate) exactly as the source does.
-/

/-- A line written to stdout or stderr; the strings stored are exactly the
strings the C code passes to `printf` / `fprintf(stderr, ...)` /
`perror`. -/
abbrev OutLine := String

/-- Observable interpreter state: the process working directory and the two
output streams (lists of the strings written, in order). -/
structure World where
  cwd : String
  out : List OutLine
  err : List OutLine
  deriving Repr, DecidableEq

/-- Outcome of the `fork()` call inside one `lsh_launch` invocation.
`fail` models `fork() < 0`; `ok statuses` models a successful fork, with
`statuses` the successive raw `int` status values that `waitpid(pid, &status,
WUNTRACED)` writes on each call in the parent's wait loop (encoded with the
Linux wait-status encoding, see `WIFEXITED` below).  The child branch
(`pid == 0`, `execvp` then `exit(EXIT_FAILURE)` on failure) runs in the
child process, so from the interpreter's side it is visible only through the
status values the parent observes. -/
inductive ForkOutcome
  | fail
  | ok (statuses : List Nat)
  deriving Repr, DecidableEq

/-- Oracle for the OS calls an interpreter run makes: whether allocations
succeed, whether `chdir` on a given path succeeds, the `strerror(errno)`
text `perror` would append, and the outcome of `fork`. -/
structure OS where
  allocOk : Bool
  chdirOk : String → Bool
  errnoMsg : String
  fork : ForkOutcome

/-- Interpreter process exit status (`EXIT_SUCCESS` / `EXIT_FAILURE`). -/
inductive ExitStatus
  | success
  | failure
  deriving Repr, DecidableEq

/-- `builtin_str` from main.c: the builtin name table, in registration
order. -/
def builtin_str : List String := ["cd", "help", "exit"]

/-- `lsh_num_builtins` from main.c: `sizeof(builtin_str) / sizeof(char *)`,
i.e. the length of the name table. -/
def lsh_num_builtins : Nat := builtin_str.length

/-- `lsh_cd` from main.c.  `args[1] == NULL` is `args.get? 1 = none`;
`chdir(args[1]) != 0` is `os.chdirOk dir = false`, in which case
`perror("lsh")` writes `"lsh: <strerror(errno)>\n"` to stderr. -/
def lsh_cd (os : OS) (args : List String) (w : World) : Int × World :=
  match args[1]? with
  | none => (1, { w with err := w.err ++ ["lsh: expected argument to \"cd\"\n"] })
  | some dir =>
    if os.chdirOk dir then
      (1, { w with cwd := dir })
    else
      (1, { w with err := w.err ++ ["lsh: " ++ os.errnoMsg ++ "\n"] })

/-- The three banner lines `lsh_help` prints before the builtin list. -/
def helpHeader : List OutLine :=
  ["Stephen Brennan\x27s LSH\n",
   "Type program names and arguments, and hit enter.\n",
   "The following are built in:\n"]

/-- The line `lsh_help` prints after the builtin list. -/
def helpFooter : List OutLine :=
  ["Use the man command for information on other programs.\n"]

/-- `lsh_help` from main.c: prints the banner, then
`for (i = 0; i < lsh_num_builtins(); i++) printf("  %s\n", builtin_str[i])`,
then the footer; returns 1. -/
def lsh_help (_os : OS) (_args : List String) (w : World) : Int × World :=
  (1, { w with out := w.out ++ helpHeader
        ++ (List.range lsh_num_builtins).map (fun i => "  " ++ builtin_str.getD i "" ++ "\n")
        ++ helpFooter })

/-- `lsh_exit` from main.c: returns 0 unconditionally. -/
def lsh_exit (_os : OS) (_args : List String) (w : World) : Int × World :=
  (0, w)

/-- `builtin_func` from main.c: the handler table, index-aligned with
`builtin_str`. -/
def builtin_func : List (OS → List String → World → Int × World) :=
  [lsh_cd, lsh_help, lsh_exit]

/-! ### Wait-status encoding (`<sys/wait.h>` macros, Linux encoding) -/

/-- `WIFEXITED(status)`: `(status & 0x7f) == 0`. -/
def WIFEXITED (s : Nat) : Bool := s % 128 == 0

/-- `WIFSIGNALED(status)`: `((signed char)(((status & 0x7f) + 1) >> 1)) > 0`,
i.e. the low 7 bits are neither 0 (exited) nor 0x7f (stopped). -/
def WIFSIGNALED (s : Nat) : Bool := s % 128 != 0 && s % 128 != 127

/-- `WIFSTOPPED(status)`: `(status & 0xff) == 0x7f`. -/
def WIFSTOPPED (s : Nat) : Bool := s % 256 == 127

/-- `WEXITSTATUS(status)`: `(status >> 8) & 0xff`. -/
def WEXITSTATUS (s : Nat) : Nat := (s / 256) % 256

/-- `WTERMSIG(status)`: `status & 0x7f`. -/
def WTERMSIG (s : Nat) : Nat := s % 128

/-- Raw status the kernel reports for a child that exited normally with
this exit code. -/
def mkExitedStatus (code : Nat) : Nat := (code % 256) * 256

/-- Raw status for a child killed by signal `sig` (a real signal number,
`1 ≤ sig ≤ 126`). -/
def mkSignaledStatus (sig : Nat) : Nat := sig % 128

/-- Raw status `waitpid` with `WUNTRACED` reports for a child stopped by
signal `sig`. -/
def mkStoppedStatus (sig : Nat) : Nat := (sig % 256) * 256 + 127

/-- The parent's wait loop in `lsh_launch`:
`do { waitpid(pid, &status, WUNTRACED); } while (!WIFEXITED(status) && !WIFSIGNALED(status));`
consuming successive reported statuses until a terminal one appears.
`none` models a wait that never sees a terminal status (the C loop would
keep blocking). -/
def waitLoop : List Nat → Option Nat
  | [] => none
  | s :: rest => if WIFEXITED s || WIFSIGNALED s then some s else waitLoop rest

/-- Result of one `lsh_launch` call: the returned `int` signal, the world
after the call, and the terminal status reaped from the child (`none` when
the fork failed and no child ever existed). -/
structure LaunchResult where
  signal : Int
  world : World
  reaped : Option Nat
  deriving Repr, DecidableEq

/-- `lsh_launch` from main.c.  On `fork() < 0` the parent runs
`perror("lsh")` and falls through to `return 1`.  On a successful fork the
parent runs the wait loop and returns 1; a run in which the wait loop never
observes a terminal status is `none` (the C call would block forever). -/
def lsh_launch (os : OS) (_args : List String) (w : World) : Option LaunchResult :=
  match os.fork with
  | ForkOutcome.fail =>
      some { signal := 1
             world := { w with err := w.err ++ ["lsh: " ++ os.errnoMsg ++ "\n"] }
             reaped := none }
  | ForkOutcome.ok statuses =>
      match waitLoop statuses with
      | none => none
      | some st => some { signal := 1, world := w, reaped := some st }

/-- `lsh_execute` from main.c: empty argument vector returns 1; otherwise
the first index `i < lsh_num_builtins()` with `strcmp(args[0],
builtin_str[i]) == 0` dispatches to `builtin_func[i]`; no match delegates to
`lsh_launch`.  `none` propagates a launch that blocks forever. -/
def lsh_execute (os : OS) (args : List String) (w : World) : Option (Int × World) :=
  match args with
  | [] => some (1, w)
  | a0 :: _ =>
    match builtin_str.findIdx? (fun s => s == a0) with
    | some i =>
      match builtin_func.get? i with
      | some f => some (f os args w)
      | none => none
    | none => (lsh_launch os args w).map (fun r => (r.signal, r.world))

/-! ### Tokenizer -/

/-- `LSH_TOK_DELIM`: the delimiter set `" \t\r\n\a"` (space, tab, carriage
return, newline, bell). -/
def LSH_TOK_DELIM : List Char := [' ', '\t', '\r', '\n', '\x07']

/-- Whether a character is one of the `LSH_TOK_DELIM` delimiters. -/
def isDelim (c : Char) : Bool := LSH_TOK_DELIM.contains c

/-- Dropping a prefix never lengthens a list. -/
theorem dropWhile_length_le (p : Char → Bool) (l : List Char) :
    (l.dropWhile p).length ≤ l.length := by
  induction l with
  | nil => simp
  | cons c rest ih =>
    by_cases h : p c
    · simp only [List.dropWhile_cons, h, if_pos]
      exact Nat.le_trans ih (Nat.le_succ _)
    · simp [List.dropWhile_cons, h]

/-- The successive-`strtok(…, LSH_TOK_DELIM)` scan at the heart of
`lsh_split_line`: skip delimiters; at a non-delimiter the token is the
maximal delimiter-free run starting there, and scanning resumes after
it. -/
def tokenize (cs : List Char) : List String :=
  match cs with
  | [] => []
  | c :: rest =>
    if isDelim c then tokenize rest
    else
      String.mk ((c :: rest).takeWhile (fun a => !isDelim a))
        :: tokenize ((c :: rest).dropWhile (fun a => !isDelim a))
termination_by cs.length
decreasing_by
  · simp
  · simp only [List.dropWhile_cons, *]
    simp only [Bool.not_eq_eq_eq_not, Bool.not_true] at *
    simp [*]
    exact Nat.lt_succ_of_le (dropWhile_length_le _ _)

/-- `lsh_split_line` from main.c: on allocation failure prints
`"lsh: allocation error\n"` and exits `EXIT_FAILURE`; otherwise the strtok
loop collects the tokens (the trailing `NULL` terminator is the end of the
list). -/
def lsh_split_line (allocOk : Bool) (line : String) : Except ExitStatus (List String) :=
  if allocOk then Except.ok (tokenize line.data)
  else Except.error ExitStatus.failure

/-- Modelled from the spec's words (§4.1 Tokenizer): "splitting on any
maximal run of delimiter characters and discarding the delimiters
themselves".  Splitting at every single delimiter yields the chunks between
delimiters, possibly empty; this helper computes those chunks. -/
def splitPieces (cs : List Char) : List (List Char) :=
  match cs with
  | [] => [[]]
  | c :: rest =>
    if isDelim c then [] :: splitPieces rest
    else
      match splitPieces rest with
      | [] => [[c]]
      | t :: ts => (c :: t) :: ts

/-- Modelled from the spec's words (§4.1 Tokenizer): the tokens of a line
are the nonempty chunks between delimiters — discarding the empty chunks
that adjacent delimiters produce is exactly splitting on maximal delimiter
runs. -/
def specSplit (cs : List Char) : List String :=
  ((splitPieces cs).filter (fun t => !t.isEmpty)).map (fun t => String.mk t)

/-- The chunks after the first delimiter of `cs` (empty when `cs` has no
delimiter). -/
def tailPieces (cs : List Char) : List (List Char) :=
  match cs.dropWhile (fun a => !isDelim a) with
  | [] => []
  | _ :: l => splitPieces l

/-- `splitPieces` always produces at least one chunk. -/
theorem splitPieces_ne_nil (cs : List Char) : splitPieces cs ≠ [] := by
  cases cs with
  | nil => simp [splitPieces]
  | cons c rest =>
    simp only [splitPieces]
    by_cases h : isDelim c
    · simp [h]
    · simp only [h]
      cases splitPieces rest <;> simp

/-- The first chunk of `splitPieces` is the maximal delimiter-free prefix. -/
theorem splitPieces_eq (cs : List Char) :
    splitPieces cs = cs.takeWhile (fun a => !isDelim a) :: tailPieces cs := by
  induction cs with
  | nil => simp [splitPieces, tailPieces]
  | cons c rest ih =>
    by_cases h : isDelim c
    · simp [splitPieces, tailPieces, List.takeWhile_cons, List.dropWhile_cons, h]
    · simp only [splitPieces, h, if_neg, Bool.false_eq_true, ite_false]
      rw [ih]
      simp [tailPieces, List.takeWhile_cons, List.dropWhile_cons, h]

/-- The first character surviving `dropWhile (not delimiter)` is a
delimiter. -/
theorem dropWhile_head_delim (cs : List Char) (d : Char) (l : List Char)
    (h : cs.dropWhile (fun a => !isDelim a) = d :: l) : isDelim d = true := by
  induction cs with
  | nil => simp at h
  | cons c rest ih =>
    by_cases hc : isDelim c
    · simp [List.dropWhile_cons, hc] at h
      cases h.1
      exact hc
    · simp [List.dropWhile_cons, hc] at h
      exact ih h

/-- Filtering the tail chunks is the spec split of the remainder after the
first token. -/
theorem tailPieces_spec (cs : List Char) :
    ((tailPieces cs).filter (fun t => !t.isEmpty)).map (fun t => String.mk t)
      = specSplit (cs.dropWhile (fun a => !isDelim a)) := by
  cases hdr : cs.dropWhile (fun a => !isDelim a) with
  | nil => simp [tailPieces, hdr, specSplit, splitPieces]
  | cons d l =>
    have hd : isDelim d = true := dropWhile_head_delim cs d l hdr
    simp [tailPieces, hdr, specSplit, splitPieces, hd]

/-- Unfolding of the spec split at a non-delimiter head. -/
theorem specSplit_cons_nondelim (c : Char) (rest : List Char) (h : ¬ isDelim c = true) :
    specSplit (c :: rest) = String.mk ((c :: rest).takeWhile (fun a => !isDelim a))
      :: specSplit ((c :: rest).dropWhile (fun a => !isDelim a)) := by
  have htk : (c :: rest).takeWhile (fun a => !isDelim a)
      = c :: rest.takeWhile (fun a => !isDelim a) := by
    simp [List.takeWhile_cons, h]
  conv_lhs => rw [specSplit, splitPieces_eq, htk]
  rw [List.filter_cons]
  simp only [List.isEmpty_cons, Bool.not_false, if_true, List.map_cons]
  rw [tailPieces_spec, htk]

/-- The strtok scan of main.c computes exactly the spec's
maximal-delimiter-run split. -/
theorem tokenize_eq_specSplit (cs : List Char) : tokenize cs = specSplit cs := by
  induction cs using tokenize.induct with
  | case1 => simp [tokenize, specSplit, splitPieces]
  | case2 c rest h ih =>
    rw [tokenize]
    simp only [h, if_pos]
    rw [ih]
    simp [specSplit, splitPieces, h]
  | case3 c rest h ih =>
    rw [tokenize, if_neg h, ih, specSplit_cons_nondelim c rest h]

/-- An all-delimiter (or empty) character list yields no tokens. -/
theorem tokenize_all_delim (cs : List Char) (h : cs.all isDelim = true) : tokenize cs = [] := by
  induction cs using tokenize.induct with
  | case1 => rw [tokenize]
  | case2 c rest hc ih =>
    rw [tokenize, if_pos hc]
    simp only [List.all_cons, Bool.and_eq_true] at h
    exact ih h.2
  | case3 c rest hc ih =>
    simp only [List.all_cons, Bool.and_eq_true] at h
    exact absurd h.1 hc

/-- Every token is non-empty and contains no delimiter character. -/
theorem tokenize_tokens_ok (cs : List Char) (t : String) (ht : t ∈ tokenize cs) :
    t ≠ "" ∧ t.data.all (fun c => !isDelim c) = true := by
  induction cs using tokenize.induct with
  | case1 => rw [tokenize] at ht; cases ht
  | case2 c rest hc ih =>
    rw [tokenize, if_pos hc] at ht
    exact ih ht
  | case3 c rest hc ih =>
    rw [tokenize, if_neg hc] at ht
    rcases List.mem_cons.mp ht with h1 | h2
    · subst h1
      have htk : (c :: rest).takeWhile (fun a => !isDelim a)
          = c :: rest.takeWhile (fun a => !isDelim a) := by
        simp [List.takeWhile_cons, hc]
      constructor
      · intro hcon
        have hdata : (String.mk ((c :: rest).takeWhile fun a => !isDelim a)).data = "".data := by
          rw [hcon]
        rw [htk] at hdata
        simp at hdata
      · show ((c :: rest).takeWhile fun a => !isDelim a).all (fun c => !isDelim c) = true
        rw [List.all_eq_true]
        intro x hx
        have hxp := List.mem_takeWhile_imp (p := fun a => !isDelim a) hx
        simpa using hxp
    · exact ih h2

/-! ### Reading a line, the loop, and main -/

/-- The `getchar` loop of `lsh_read_line`: `EOF` before a newline calls
`exit(EXIT_SUCCESS)`; a newline terminates the buffer and returns it
together with the unread remainder of the input. -/
def lsh_read_line_go : List Char → Except ExitStatus (String × List Char)
  | [] => Except.error ExitStatus.success
  | c :: rest =>
    if c = '\n' then Except.ok ("", rest)
    else
      match lsh_read_line_go rest with
      | Except.error e => Except.error e
      | Except.ok (s, r) => Except.ok (String.mk (c :: s.data), r)

/-- `lsh_read_line` from main.c: if the buffer allocation fails, print
`"lsh: allocation error\n"` and exit `EXIT_FAILURE`; otherwise run the
`getchar` loop on the remaining input. -/
def lsh_read_line (allocOk : Bool) (input : List Char) : Except ExitStatus (String × List Char) :=
  if allocOk then lsh_read_line_go input
  else Except.error ExitStatus.failure

/-- A successful read consumes at least the terminating newline. -/
theorem lsh_read_line_length {b : Bool} {input : List Char} {s : String} {r : List Char}
    (h : lsh_read_line b input = Except.ok (s, r)) : r.length < input.length := by
  cases b with
  | false => simp [lsh_read_line] at h
  | true =>
    simp only [lsh_read_line, if_pos] at h
    induction input generalizing s r with
    | nil => simp [lsh_read_line_go] at h
    | cons c rest ih =>
      simp only [lsh_read_line_go] at h
      by_cases hc : c = '\n'
      · simp only [hc, if_pos rfl] at h
        cases h
        simp
      · simp only [if_neg hc] at h
        cases hgo : lsh_read_line_go rest with
        | error e => rw [hgo] at h; cases h
        | ok pr =>
          rw [hgo] at h
          cases pr with
          | mk s0 r0 =>
            simp at h
            have := ih (s := s0) (r := r0) hgo
            cases h with
            | intro h1 h2 =>
              subst h2
              exact Nat.lt_trans this (Nat.lt_succ_self _)

/-- `lsh_loop` from main.c composed with `main`'s `return EXIT_SUCCESS`:
print the prompt, read a line (whose fatal paths carry their own exit
status), split it, execute it, and iterate while the returned status is
nonzero; a zero status falls back to `main`, which returns
`EXIT_SUCCESS`.  `none` models a run that blocks forever inside a launch. -/
def lsh_loop (os : OS) (w : World) (input : List Char) : Option (ExitStatus × World) :=
  let w1 := { w with out := w.out ++ ["> "] }
  match h : lsh_read_line os.allocOk input with
  | Except.error e => some (e, w1)
  | Except.ok (line, rest) =>
    match lsh_split_line os.allocOk line with
    | Except.error e => some (e, w1)
    | Except.ok args =>
      match lsh_execute os args w1 with
      | none => none
      | some (status, w2) =>
        if status = 0 then some (ExitStatus.success, w2)
        else lsh_loop os w2 rest
termination_by input.length
decreasing_by
  exact lsh_read_line_length h

/-- `main` from main.c: run the loop from a given initial working
directory with empty output streams. -/
def lsh_main (os : OS) (cwd0 : String) (input : List Char) : Option (ExitStatus × World) :=
  lsh_loop os { cwd := cwd0, out := [], err := [] } input

/-! ### Helper lemmas about reading and the loop -/

/-- Reading from input that starts with a newline-free prefix followed by a
newline returns exactly that prefix and the remainder. -/
theorem lsh_read_line_go_upto_newline (pre rest : List Char) (h : ∀ c ∈ pre, c ≠ '\n') :
    lsh_read_line_go (pre ++ '\n' :: rest) = Except.ok (String.mk pre, rest) := by
  induction pre with
  | nil => simp [lsh_read_line_go]
  | cons c p ih =>
    have hc : c ≠ '\n' := h c (by simp)
    have ihh := ih (fun x hx => h x (by simp [hx]))
    simp only [List.cons_append, lsh_read_line_go, if_neg hc, List.append_eq]
    rw [ihh]

/-- The `getchar` loop's only fatal path is end-of-input, which exits with
success. -/
theorem lsh_read_line_go_error (input : List Char) (e : ExitStatus)
    (h : lsh_read_line_go input = Except.error e) : e = ExitStatus.success := by
  induction input with
  | nil => simp [lsh_read_line_go] at h; exact h.symm
  | cons c rest ih =>
    simp only [lsh_read_line_go] at h
    by_cases hc : c = '\n'
    · rw [if_pos hc] at h; cases h
    · rw [if_neg hc] at h
      cases hgo : lsh_read_line_go rest with
      | error e' =>
        rw [hgo] at h
        cases h
        exact ih hgo
      | ok pr => rw [hgo] at h; cases h

/-- Loop unfolding: a failed read ends the iteration at once with the
read's exit status, after only the prompt was printed. -/
theorem lsh_loop_unfold_read_error (os : OS) (w : World) (input : List Char) (e : ExitStatus)
    (h : lsh_read_line os.allocOk input = Except.error e) :
    lsh_loop os w input = some (e, { w with out := w.out ++ ["> "] }) := by
  unfold lsh_loop
  split
  next heq => rw [h] at heq; cases heq; rfl
  next heq => rw [h] at heq; cases heq

/-- Loop unfolding: a successful read, split and execute step iterates or
stops according to the returned status. -/
theorem lsh_loop_unfold_ok (os : OS) (w : World) (input : List Char) (line : String)
    (rest : List Char) (args : List String) (status : Int) (w2 : World)
    (hr : lsh_read_line os.allocOk input = Except.ok (line, rest))
    (hs : lsh_split_line os.allocOk line = Except.ok args)
    (he : lsh_execute os args { w with out := w.out ++ ["> "] } = some (status, w2)) :
    lsh_loop os w input
      = if status = 0 then some (ExitStatus.success, w2) else lsh_loop os w2 rest := by
  conv_lhs => unfold lsh_loop
  split
  next heq => rw [hr] at heq; cases heq
  next heq =>
    rw [hr] at heq
    cases heq
    split
    next heq2 => rw [hs] at heq2; cases heq2
    next heq2 =>
      rw [hs] at heq2
      cases heq2
      dsimp only
      rw [he]

/-- Loop unfolding: a launch that blocks forever makes the whole run block. -/
theorem lsh_loop_unfold_none (os : OS) (w : World) (input : List Char) (line : String)
    (rest : List Char) (args : List String)
    (hr : lsh_read_line os.allocOk input = Except.ok (line, rest))
    (hs : lsh_split_line os.allocOk line = Except.ok args)
    (he : lsh_execute os args { w with out := w.out ++ ["> "] } = none) :
    lsh_loop os w input = none := by
  conv_lhs => unfold lsh_loop
  split
  next heq => rw [hr] at heq; cases heq
  next heq =>
    rw [hr] at heq
    cases heq
    split
    next heq2 => rw [hs] at heq2; cases heq2
    next heq2 =>
      rw [hs] at heq2
      cases heq2
      dsimp only
      rw [he]

/-- When every allocation succeeds, any run of the loop that terminates
does so with a success status. -/
theorem loop_success_aux (os : OS) (hal : os.allocOk = true) :
    ∀ (n : Nat) (w : World) (input : List Char), input.length ≤ n →
      ∀ ec w', lsh_loop os w input = some (ec, w') → ec = ExitStatus.success := by
  intro n
  induction n with
  | zero =>
    intro w input hlen ec w' h
    have hinput : input = [] := List.length_eq_zero.mp (Nat.le_zero.mp hlen)
    subst hinput
    rw [lsh_loop_unfold_read_error os w [] ExitStatus.success (by rw [hal]; rfl)] at h
    cases h
    rfl
  | succ n ih =>
    intro w input hlen ec w' h
    cases hr : lsh_read_line os.allocOk input with
    | error e =>
      have he : e = ExitStatus.success := by
        rw [hal] at hr
        simp only [lsh_read_line, if_pos] at hr
        exact lsh_read_line_go_error input e hr
      rw [lsh_loop_unfold_read_error os w input e hr] at h
      cases h
      exact he
    | ok pr =>
      obtain ⟨line, rest⟩ := pr
      have hs : lsh_split_line os.allocOk line = Except.ok (tokenize line.data) := by
        rw [hal]; rfl
      cases hexec : lsh_execute os (tokenize line.data) { w with out := w.out ++ ["> "] } with
      | none =>
        rw [lsh_loop_unfold_none os w input line rest _ hr hs hexec] at h
        cases h
      | some pr2 =>
        obtain ⟨status, w2⟩ := pr2
        rw [lsh_loop_unfold_ok os w input line rest _ status w2 hr hs hexec] at h
        by_cases hst : status = 0
        · rw [if_pos hst] at h
          cases h
          rfl
        · rw [if_neg hst] at h
          have hrest : rest.length ≤ n := by
            have := lsh_read_line_length hr
            omega
          exact ih w2 rest hrest ec w' h

/-! ### Concrete fixtures used by the witness theorems -/

/-- A concrete oracle: allocations succeed, only `chdir "/tmp"` succeeds,
`fork` fails. -/
def osW : OS :=
  { allocOk := true
    chdirOk := fun d => d == "/tmp"
    errnoMsg := "No such file or directory"
    fork := ForkOutcome.fail }

/-- A concrete oracle whose fork succeeds; the child is first stopped
(SIGSTOP = 19), then exits with code 0. -/
def osWok : OS := { osW with fork := ForkOutcome.ok [mkStoppedStatus 19, mkExitedStatus 0] }

/-- A concrete oracle whose allocations fail. -/
def osWbad : OS := { osW with allocOk := false }

/-- A concrete starting world. -/
def wW : World := { cwd := "/home", out := [], err := [] }

/-- C7: `lsh_help`, whatever its arguments, returns 1 (Continue) and writes
to stdout the static banner followed by exactly the 3 registered builtin
names `cd`, `help`, `exit`, each on its own line (indented, newline
terminated), in registration order, then the footer line. -/
theorem help_lists_builtins (os : OS) (args : List String) (w : World) :
    lsh_help os args w
      = (1, { w with out := w.out ++ helpHeader
                       ++ ["  cd\n", "  help\n", "  exit\n"] ++ helpFooter })
    ∧ builtin_str = ["cd", "help", "exit"] := by
  exact ⟨rfl, rfl⟩

/-- C1: the dispatcher returns Continue (1) on an empty token sequence with
no side effect; a first token equal to a registered builtin name invokes
that builtin on the full sequence; any other first token delegates to
`lsh_launch` on the full sequence. -/
theorem dispatcher_spec (os : OS) (w : World) :
    lsh_execute os [] w = some (1, w)
    ∧ (∀ rest, lsh_execute os ("cd" :: rest) w = some (lsh_cd os ("cd" :: rest) w))
    ∧ (∀ rest, lsh_execute os ("help" :: rest) w = some (lsh_help os ("help" :: rest) w))
    ∧ (∀ rest, lsh_execute os ("exit" :: rest) w = some (lsh_exit os ("exit" :: rest) w))
    ∧ (∀ a0 rest, a0 ∉ builtin_str →
        lsh_execute os (a0 :: rest) w
          = (lsh_launch os (a0 :: rest) w).map (fun r => (r.signal, r.world))) := by
  refine ⟨rfl, fun rest => rfl, fun rest => rfl, fun rest => rfl, ?_⟩
  intro a0 rest hm
  simp only [builtin_str, List.mem_cons, List.mem_singleton] at hm
  push_neg at hm
  obtain ⟨h1, h2, h3, -⟩ := hm
  simp [lsh_execute, builtin_str, List.findIdx?, Ne.symm h1, Ne.symm h2, Ne.symm h3]

/-- C1 witness: concrete instances of each dispatcher case. -/
theorem dispatcher_spec_witness :
    lsh_execute osW [] wW = some (1, wW)
    ∧ lsh_execute osW ["exit", "now"] wW = some (lsh_exit osW ["exit", "now"] wW)
    ∧ lsh_execute osW ["ls", "-la"] wW
        = (lsh_launch osW ["ls", "-la"] wW).map (fun r => (r.signal, r.world)) := by
  refine ⟨(dispatcher_spec osW wW).1, (dispatcher_spec osW wW).2.2.2.1 ["now"], ?_⟩
  exact (dispatcher_spec osW wW).2.2.2.2 "ls" ["-la"] (by decide)

/-- C5: `lsh_cd` always returns 1 (Continue); with no argument it appends
the usage error to stderr and changes nothing else; with an argument on
which `chdir` fails it appends the OS error to stderr and changes nothing
else (in both failure cases the `cwd` field, the working directory, is
untouched). -/
theorem cd_error_handling (os : OS) (args : List String) (w : World) :
    (lsh_cd os args w).1 = 1
    ∧ (args[1]? = none →
        lsh_cd os args w
          = (1, { w with err := w.err ++ ["lsh: expected argument to \"cd\"\n"] }))
    ∧ (∀ d, args[1]? = some d → os.chdirOk d = false →
        lsh_cd os args w
          = (1, { w with err := w.err ++ ["lsh: " ++ os.errnoMsg ++ "\n"] })) := by
  refine ⟨?_, ?_, ?_⟩
  · cases h : args[1]? with
    | none => simp [lsh_cd, h]
    | some d =>
      by_cases hc : os.chdirOk d
      · simp [lsh_cd, h, hc]
      · simp [lsh_cd, h, hc]
  · intro h
    simp [lsh_cd, h]
  · intro d h hc
    simp [lsh_cd, h, hc]

/-- C5 witness: `cd` without argument, and `cd /nonexistent-path` under an
oracle whose `chdir` fails, both return 1 and only extend stderr. -/
theorem cd_error_handling_witness :
    lsh_cd osW ["cd"] wW
      = (1, { wW with err := wW.err ++ ["lsh: expected argument to \"cd\"\n"] })
    ∧ lsh_cd osW ["cd", "/nonexistent-path"] wW
      = (1, { wW with err := wW.err ++ ["lsh: " ++ osW.errnoMsg ++ "\n"] }) := by
  constructor
  · exact (cd_error_handling osW ["cd"] wW).2.1 rfl
  · exact (cd_error_handling osW ["cd", "/nonexistent-path"] wW).2.2 "/nonexistent-path" rfl (by decide)

/-- C10: `lsh_cd` with two or more arguments behaves exactly like the
two-token call on the first argument: later arguments are ignored, no usage
error is emitted, `chdir` is attempted on the first argument only, and the
result is 1 (Continue). -/
theorem cd_ignores_extra_args (os : OS) (w : World) (a b : String) (rest : List String) :
    lsh_cd os ("cd" :: a :: b :: rest) w = lsh_cd os ["cd", a] w
    ∧ (lsh_cd os ("cd" :: a :: b :: rest) w).1 = 1
    ∧ (os.chdirOk a = true →
        lsh_cd os ("cd" :: a :: b :: rest) w = (1, { w with cwd := a }))
    ∧ (os.chdirOk a = false →
        lsh_cd os ("cd" :: a :: b :: rest) w
          = (1, { w with err := w.err ++ ["lsh: " ++ os.errnoMsg ++ "\n"] })) := by
  by_cases hc : os.chdirOk a
  · refine ⟨by simp [lsh_cd, hc], by simp [lsh_cd, hc], fun _ => by simp [lsh_cd, hc], ?_⟩
    intro hcf
    rw [hc] at hcf
    cases hcf
  · refine ⟨by simp [lsh_cd, hc], by simp [lsh_cd, hc], ?_, fun _ => by simp [lsh_cd, hc]⟩
    intro hct
    rw [eq_false hc] at hct
    cases hct

/-- C10 witness: `cd a b` with a succeeding `chdir` changes the directory
to `a` and ignores `b`. -/
theorem cd_ignores_extra_args_witness :
    lsh_cd osW ["cd", "/tmp", "b"] wW = lsh_cd osW ["cd", "/tmp"] wW
    ∧ lsh_cd osW ["cd", "/tmp", "b"] wW = (1, { wW with cwd := "/tmp" }) := by
  refine ⟨(cd_ignores_extra_args osW wW "/tmp" "b" []).1, ?_⟩
  exact (cd_ignores_extra_args osW wW "/tmp" "b" []).2.2.1 (by decide)

/-- C3: `lsh_launch` returns 1 (Continue) in every completed case: when the
fork fails it reports to stderr, no child exists, and it still returns 1;
when the fork succeeds and the wait loop observes a terminal status it
returns 1 with the world untouched. -/
theorem launch_always_continue (os : OS) (args : List String) (w : World) :
    (∀ r, lsh_launch os args w = some r → r.signal = 1)
    ∧ (os.fork = ForkOutcome.fail →
        lsh_launch os args w
          = some { signal := 1
                   world := { w with err := w.err ++ ["lsh: " ++ os.errnoMsg ++ "\n"] }
                   reaped := none })
    ∧ (∀ statuses st, os.fork = ForkOutcome.ok statuses → waitLoop statuses = some st →
        lsh_launch os args w = some { signal := 1, world := w, reaped := some st }) := by
  refine ⟨?_, ?_, ?_⟩
  · intro r hr
    cases hf : os.fork with
    | fail =>
      simp [lsh_launch, hf] at hr
      rw [← hr]
    | ok statuses =>
      simp only [lsh_launch, hf] at hr
      cases hw : waitLoop statuses with
      | none => rw [hw] at hr; cases hr
      | some st =>
        rw [hw] at hr
        cases hr
        rfl
  · intro hf
    simp [lsh_launch, hf]
  · intro statuses st hf hw
    simp [lsh_launch, hf, hw]

/-- C3 witness: a failed fork, a child exiting with code 7, and a child
killed by signal 9 all yield signal 1. -/
theorem launch_always_continue_witness :
    lsh_launch osW ["ls"] wW
      = some { signal := 1
               world := { wW with err := wW.err ++ ["lsh: " ++ osW.errnoMsg ++ "\n"] }
               reaped := none }
    ∧ lsh_launch osWok ["ls"] wW
      = some { signal := 1, world := wW, reaped := some (mkExitedStatus 0) }
    ∧ lsh_launch { osW with fork := ForkOutcome.ok [mkSignaledStatus 9] } ["ls"] wW
      = some { signal := 1, world := wW, reaped := some (mkSignaledStatus 9) } := by
  refine ⟨(launch_always_continue osW ["ls"] wW).2.1 rfl, ?_, ?_⟩
  · exact (launch_always_continue osWok ["ls"] wW).2.2
      [mkStoppedStatus 19, mkExitedStatus 0] (mkExitedStatus 0) rfl (by decide)
  · exact (launch_always_continue { osW with fork := ForkOutcome.ok [mkSignaledStatus 9] }
      ["ls"] wW).2.2 [mkSignaledStatus 9] (mkSignaledStatus 9) rfl (by decide)

/-- C4: the wait loop of `lsh_launch` terminates exactly at a status
satisfying `WIFEXITED` or `WIFSIGNALED`; a stopped-child status never ends
it; a normally exited child's exit code is retrievable from the status via
`WEXITSTATUS`; and on a successful fork `lsh_launch` is the wait loop's
result with signal 1 and the reaped status recorded (then discarded from
the return value). -/
theorem launch_wait_until_terminal :
    (∀ l s, waitLoop l = some s → (WIFEXITED s || WIFSIGNALED s) = true)
    ∧ (∀ sig rest, waitLoop (mkStoppedStatus sig :: rest) = waitLoop rest)
    ∧ (∀ sig, WIFSTOPPED (mkStoppedStatus sig) = true)
    ∧ (∀ code, WIFEXITED (mkExitedStatus code) = true
        ∧ WEXITSTATUS (mkExitedStatus code) = code % 256)
    ∧ (∀ (os : OS) (args : List String) (w : World) statuses,
        os.fork = ForkOutcome.ok statuses →
        lsh_launch os args w
          = (waitLoop statuses).map
              (fun st => { signal := 1, world := w, reaped := some st })) := by
  refine ⟨?_, ?_, ?_, ?_, ?_⟩
  · intro l
    induction l with
    | nil => intro s h; cases h
    | cons x rest ih =>
      intro s h
      by_cases hx : (WIFEXITED x || WIFSIGNALED x) = true
      · rw [waitLoop, if_pos hx] at h
        cases h
        exact hx
      · rw [waitLoop, if_neg hx] at h
        exact ih s h
  · intro sig rest
    have hcond : (WIFEXITED (mkStoppedStatus sig) || WIFSIGNALED (mkStoppedStatus sig)) = false := by
      simp only [WIFEXITED, WIFSIGNALED, mkStoppedStatus, Bool.or_eq_false_iff,
        beq_eq_false_iff_ne, Bool.and_eq_false_iff, bne_eq_false_iff_eq]
      constructor
      · omega
      · right; omega
    rw [waitLoop, hcond]
    simp
  · intro sig
    simp only [WIFSTOPPED, mkStoppedStatus, beq_iff_eq]
    omega
  · intro code
    constructor
    · simp only [WIFEXITED, mkExitedStatus, beq_iff_eq]
      omega
    · simp only [WEXITSTATUS, mkExitedStatus]
      omega
  · intro os args w statuses hf
    simp only [lsh_launch, hf]
    cases waitLoop statuses with
    | none => rfl
    | some st => rfl

/-- C4 witness: with the oracle whose child is stopped by SIGSTOP then
exits with code 0, the stopped status does not end the wait, the reaped
status is terminal, and its exit code is retrievable. -/
theorem launch_wait_until_terminal_witness :
    waitLoop [mkStoppedStatus 19, mkExitedStatus 0] = waitLoop [mkExitedStatus 0]
    ∧ (WIFEXITED (mkExitedStatus 0) || WIFSIGNALED (mkExitedStatus 0)) = true
    ∧ WEXITSTATUS (mkExitedStatus 0) = 0 % 256
    ∧ lsh_launch osWok ["ls"] wW
      = (waitLoop [mkStoppedStatus 19, mkExitedStatus 0]).map
          (fun st => { signal := 1, world := wW, reaped := some st }) := by
  refine ⟨launch_wait_until_terminal.2.1 19 [mkExitedStatus 0], ?_, ?_, ?_⟩
  · exact launch_wait_until_terminal.1 [mkExitedStatus 0] (mkExitedStatus 0) (by decide)
  · exact (launch_wait_until_terminal.2.2.2.1 0).2
  · exact launch_wait_until_terminal.2.2.2.2 osWok ["ls"] wW
      [mkStoppedStatus 19, mkExitedStatus 0] rfl

/-- C9: the name table and handler table both have length 3,
`lsh_num_builtins` returns that shared length, every index below it is in
bounds for both tables, and a first token matched at index `i` makes the
dispatcher invoke the handler at the same index `i`. -/
theorem builtin_tables_aligned :
    builtin_str.length = builtin_func.length
    ∧ lsh_num_builtins = builtin_str.length
    ∧ lsh_num_builtins = 3
    ∧ (∀ i, i < lsh_num_builtins →
        (builtin_str.get? i).isSome = true ∧ (builtin_func.get? i).isSome = true)
    ∧ (∀ name i, builtin_str.findIdx? (fun s => s == name) = some i →
        i < builtin_func.length
        ∧ ∀ (os : OS) (rest : List String) (w : World),
            lsh_execute os (name :: rest) w
              = (builtin_func.get? i).map (fun f => f os (name :: rest) w)) := by
  refine ⟨rfl, rfl, rfl, ?_, ?_⟩
  · intro i hi
    have h3 : i = 0 ∨ i = 1 ∨ i = 2 := by
      simp only [lsh_num_builtins, builtin_str, List.length_cons, List.length_nil] at hi
      omega
    rcases h3 with h | h | h <;> subst h <;> exact ⟨rfl, rfl⟩
  · intro name i hidx
    have hcases : (name = "cd" ∧ i = 0) ∨ (name = "help" ∧ i = 1) ∨ (name = "exit" ∧ i = 2) := by
      by_cases e1 : name = "cd"
      · subst e1
        have : builtin_str.findIdx? (fun s => s == "cd") = some 0 := by decide
        rw [this] at hidx
        cases hidx
        exact Or.inl ⟨rfl, rfl⟩
      · by_cases e2 : name = "help"
        · subst e2
          have : builtin_str.findIdx? (fun s => s == "help") = some 1 := by decide
          rw [this] at hidx
          cases hidx
          exact Or.inr (Or.inl ⟨rfl, rfl⟩)
        · by_cases e3 : name = "exit"
          · subst e3
            have : builtin_str.findIdx? (fun s => s == "exit") = some 2 := by decide
            rw [this] at hidx
            cases hidx
            exact Or.inr (Or.inr ⟨rfl, rfl⟩)
          · exfalso
            have : builtin_str.findIdx? (fun s => s == name) = none := by
              simp [builtin_str, List.findIdx?, Ne.symm e1, Ne.symm e2, Ne.symm e3]
            rw [this] at hidx
            cases hidx
    rcases hcases with ⟨hn, hi⟩ | ⟨hn, hi⟩ | ⟨hn, hi⟩ <;> subst hn <;> subst hi
    · exact ⟨by decide, fun os rest w => rfl⟩
    · exact ⟨by decide, fun os rest w => rfl⟩
    · exact ⟨by decide, fun os rest w => rfl⟩

/-- C9 witness: index 2 is in bounds for both tables and the token `exit`
dispatches to the handler at index 2. -/
theorem builtin_tables_aligned_witness :
    ((builtin_str.get? 2).isSome = true ∧ (builtin_func.get? 2).isSome = true)
    ∧ lsh_execute osW ["exit"] wW
        = (builtin_func.get? 2).map (fun f => f osW ["exit"] wW) := by
  refine ⟨builtin_tables_aligned.2.2.2.1 2 (by decide), ?_⟩
  exact (builtin_tables_aligned.2.2.2.2 "exit" 2 (by decide)).2 osW [] wW

/-- C2: successful tokenization computes exactly the spec's
maximal-delimiter-run split; an all-delimiter or empty line yields no
tokens; every token is non-empty and delimiter-free; and the line
`"  ls   -la  "` yields exactly `["ls", "-la"]`. -/
theorem tokenizer_splits_on_delims :
    (∀ line : String, lsh_split_line true line = Except.ok (specSplit line.data))
    ∧ (∀ line : String, line.data.all isDelim = true → lsh_split_line true line = Except.ok [])
    ∧ (∀ line : String, ∀ t ∈ tokenize line.data,
        t ≠ "" ∧ t.data.all (fun c => !isDelim c) = true)
    ∧ lsh_split_line true "  ls   -la  " = Except.ok ["ls", "-la"] := by
  refine ⟨?_, ?_, ?_, ?_⟩
  · intro line
    simp [lsh_split_line, tokenize_eq_specSplit]
  · intro line h
    simp [lsh_split_line, tokenize_all_delim _ h]
  · intro line t ht
    exact tokenize_tokens_ok _ t ht
  · have hts : tokenize "  ls   -la  ".data = ["ls", "-la"] := by
      rw [tokenize_eq_specSplit]
      decide
    simp [lsh_split_line, hts]

/-- C2 witness: an all-delimiter line yields no tokens, and the token `ls`
produced from `"  ls   -la  "` is non-empty and delimiter-free. -/
theorem tokenizer_splits_on_delims_witness :
    lsh_split_line true " \t\n" = Except.ok []
    ∧ ("ls" ≠ "" ∧ "ls".data.all (fun c => !isDelim c) = true) := by
  constructor
  · exact tokenizer_splits_on_delims.2.1 " \t\n" (by decide)
  · exact tokenizer_splits_on_delims.2.2.1 "  ls   -la  " "ls"
      (by rw [tokenize_eq_specSplit]; decide)

/-- C8: `lsh_exit` returns 0 (Terminate) whatever its arguments, and a read
line whose first token is `exit` makes the loop return at once with the
interpreter's success status, regardless of the remaining input and of the
prior world state. -/
theorem exit_terminates_loop (os : OS) (w : World) :
    (∀ args, lsh_exit os args w = (0, w))
    ∧ (∀ (line : String) (rest : List Char) (tl : List String),
        os.allocOk = true →
        (∀ c ∈ line.data, c ≠ '\n') →
        tokenize line.data = "exit" :: tl →
        lsh_loop os w (line.data ++ '\n' :: rest)
          = some (ExitStatus.success, { w with out := w.out ++ ["> "] })) := by
  constructor
  · intro args
    rfl
  · intro line rest tl hal hnl htok
    have hread : lsh_read_line os.allocOk (line.data ++ '\n' :: rest)
        = Except.ok (line, rest) := by
      rw [hal]
      simp only [lsh_read_line, if_pos]
      rw [lsh_read_line_go_upto_newline line.data rest hnl]
    have hsplit : lsh_split_line os.allocOk line = Except.ok ("exit" :: tl) := by
      rw [hal]
      simp [lsh_split_line, htok]
    have hexec : lsh_execute os ("exit" :: tl) { w with out := w.out ++ ["> "] }
        = some (0, { w with out := w.out ++ ["> "] }) := rfl
    rw [lsh_loop_unfold_ok os w (line.data ++ '\n' :: rest) line rest ("exit" :: tl) 0
      { w with out := w.out ++ ["> "] } hread hsplit hexec]
    simp

/-- C8 witness: typing `exit` terminates the loop with the success status
even with further input pending. -/
theorem exit_terminates_loop_witness :
    lsh_loop osW wW ("exit".data ++ '\n' :: "help\n".data)
      = some (ExitStatus.success, { wW with out := wW.out ++ ["> "] }) := by
  exact (exit_terminates_loop osW wW).2 "exit" "help\n".data [] rfl (by decide)
    (by rw [tokenize_eq_specSplit]; decide)

/-- C6: with allocations succeeding, end-of-input terminates the run at
once with the success status (even with no prior commands), and every
terminating run ends with the success status; the failure status arises
exactly on the allocation-failure path. -/
theorem interpreter_exit_status (os : OS) (w : World) :
    (os.allocOk = true →
      lsh_loop os w [] = some (ExitStatus.success, { w with out := w.out ++ ["> "] }))
    ∧ (os.allocOk = true → ∀ (input : List Char) ec w',
        lsh_loop os w input = some (ec, w') → ec = ExitStatus.success)
    ∧ (os.allocOk = false → ∀ input : List Char,
        lsh_loop os w input = some (ExitStatus.failure, { w with out := w.out ++ ["> "] })) := by
  refine ⟨?_, ?_, ?_⟩
  · intro hal
    exact lsh_loop_unfold_read_error os w [] ExitStatus.success (by rw [hal]; rfl)
  · intro hal input ec w' h
    exact loop_success_aux os hal input.length w input (le_refl _) ec w' h
  · intro hal input
    exact lsh_loop_unfold_read_error os w input ExitStatus.failure (by rw [hal]; rfl)

/-- C6 witness: immediate end-of-input exits with success; an allocation
failure exits with failure. -/
theorem interpreter_exit_status_witness :
    lsh_loop osW wW [] = some (ExitStatus.success, { wW with out := wW.out ++ ["> "] })
    ∧ lsh_loop osWbad wW "hi\n".data
        = some (ExitStatus.failure, { wW with out := wW.out ++ ["> "] }) := by
  exact ⟨(interpreter_exit_status osW wW).1 rfl,
    (interpreter_exit_status osWbad wW).2.2 rfl "hi\n".data⟩
